import Mathlib

/-!
Verification of the streaming candle-chart core of `ethusd_live_chart.py`.

The embedding follows the source closely:
* `live_candles = deque(maxlen=100)` is modelled as a `List Candle` together
  with `dequeAppend`, which drops from the front once the length would exceed
  the capacity;
* `LiveETHUSDChart.on_websocket_message` is modelled by `on_websocket_message`;
  the numeric OHLCV fields go through `float(...)`, whose only observable
  behaviour here is "parses to a value or raises", modelled by `RawNum`;
  the parsed values are carried as rationals because the program only ever
  compares them (no float arithmetic is relevant to any claim);
* `AdvancedLiveChart.check_alerts` / `on_websocket_message` are modelled by
  `check_alerts` / `adv_on_websocket_message`;
* `fetch_initial_data`'s series mutation (appending every candle of a
  successful non-empty result to the deque) is `fetch_initial_data`.
-/

/-- A stored candle, as built at lines 72–80 of the source: `time` is epoch
seconds (`candle_start_time // 1000000`), the OHLCV fields come from
`float(...)`.  The derived `datetime` field is presentation-only and omitted.
`open` is a Lean keyword, hence the field name `open_`. -/
structure Candle where
  time : Int
  open_ : ℚ
  high : ℚ
  low : ℚ
  close : ℚ
  volume : ℚ
  deriving DecidableEq, Repr

/-- `deque(maxlen=N).append(c)`: append on the right, evicting from the left
whenever the length would exceed `N`. -/
def dequeAppend (N : Nat) (xs : List Candle) (c : Candle) : List Candle :=
  if N < (xs ++ [c]).length then (xs ++ [c]).drop ((xs ++ [c]).length - N)
  else xs ++ [c]

/-- Lines 83–88 of the source: if the deque is non-empty and its last
element has the same `time`, replace the last element in place, otherwise
append (with deque eviction). -/
def upsert (N : Nat) (xs : List Candle) (c : Candle) : List Candle :=
  match xs.getLast? with
  | some l => if l.time = c.time then xs.dropLast ++ [c] else dequeAppend N xs c
  | none => dequeAppend N xs c

/-- The capacity of `self.live_candles` (line 22: `deque(maxlen=100)`). -/
def maxlen : Nat := 100

/-- The observable behaviour of `float(x)` on a JSON field value: it either
parses to a numeric value or raises `ValueError`. -/
inductive RawNum where
  | val (q : ℚ)
  | bad
  deriving DecidableEq, Repr

/-- A decoded inbound JSON message, restricted to the keys the handler reads.
`none` in an `Option` field means the key is absent (so `data['k']` raises
`KeyError` and `data.get('k')` yields a default). -/
structure RawMsg where
  type : Option String
  symbol : Option String
  candle_start_time : Option Int
  open_ : Option RawNum
  high : Option RawNum
  low : Option RawNum
  close : Option RawNum
  volume : Option RawNum
  deriving DecidableEq, Repr

/-- `float(data['k'])` for a mandatory field: absence (`KeyError`) or an
unparseable value (`ValueError`) raises, modelled as `none`. -/
def reqField : Option RawNum → Option ℚ
  | some (RawNum.val q) => some q
  | some RawNum.bad => none
  | none => none

/-- `float(data.get('volume', 0))` (line 78): an absent volume defaults to
`0`, a present but unparseable volume raises. -/
def volField : Option RawNum → Option ℚ
  | none => some 0
  | some (RawNum.val q) => some q
  | some RawNum.bad => none

/-- Building the candle dict at lines 72–80: any raised exception while
evaluating the fields aborts the whole message (it is caught at line 103),
modelled by `none`.  `time` is `candle_start_time // 1000000`, Python's
floor division. -/
def parseCandle (m : RawMsg) : Option Candle := do
  let cst ← m.candle_start_time
  let o ← reqField m.open_
  let h ← reqField m.high
  let l ← reqField m.low
  let c ← reqField m.close
  let v ← volField m.volume
  pure { time := cst.fdiv 1000000, open_ := o, high := h, low := l,
         close := c, volume := v }

/-- Classification of a handled message, in the spec's vocabulary: each
constructor names one control path of `on_websocket_message`. -/
inductive Outcome where
  | CandleUpdated (c : Candle)
  | TickerReceived
  | Ignored
  | Malformed
  deriving DecidableEq, Repr

/-- `LiveETHUSDChart.on_websocket_message` (lines 65–104), acting on the
candle deque.  The candle branch is taken iff `type == 'candlestick_1m'`
and `symbol == 'ETHUSD'`; a field exception leaves the series unchanged
(`Malformed`); the ticker branch never touches the series; everything else
is silently ignored. -/
def on_websocket_message (m : RawMsg) (candles : List Candle) :
    List Candle × Outcome :=
  if m.type = some "candlestick_1m" ∧ m.symbol = some "ETHUSD" then
    match parseCandle m with
    | some c => (upsert maxlen candles c, Outcome.CandleUpdated c)
    | none => (candles, Outcome.Malformed)
  else if m.type = some "ticker" ∧ m.symbol = some "ETHUSD" then
    (candles, Outcome.TickerReceived)
  else
    (candles, Outcome.Ignored)

/-- The series mutation of `fetch_initial_data` (lines 33–63): on a
successful non-empty result every candle is appended to the deque and the
call reports `True`; otherwise the series is untouched and the call reports
`False`.  No validation of any kind is performed on `result`. -/
def fetch_initial_data (success : Bool) (result : List Candle)
    (candles : List Candle) : List Candle × Bool :=
  if success = true ∧ result ≠ [] then
    (result.foldl (fun s c => dequeAppend maxlen s c) candles, true)
  else
    (candles, false)

/-- A price alert as built by `add_price_alert` (line 309):
`{"price": price, "type": alert_type, "triggered": False}`.  The direction
is a plain string in the source. -/
structure PriceAlert where
  price : ℚ
  type : String
  triggered : Bool
  deriving DecidableEq, Repr

/-- The loop body of `check_alerts` (lines 314–321) for one alert: an armed
alert latches iff its direction test passes; a triggered alert is skipped. -/
def check_alert_step (current_price : ℚ) (a : PriceAlert) : PriceAlert :=
  if a.triggered = false then
    if a.type = "above" ∧ a.price ≤ current_price then
      { a with triggered := true }
    else if a.type = "below" ∧ current_price ≤ a.price then
      { a with triggered := true }
    else a
  else a

/-- `AdvancedLiveChart.check_alerts` (lines 312–321): the `for` loop visits
the alerts in registration order and mutates each independently. -/
def check_alerts (current_price : ℚ) : List PriceAlert → List PriceAlert
  | [] => []
  | a :: rest => check_alert_step current_price a :: check_alerts current_price rest

/-- The mutable state of an `AdvancedLiveChart`: the candle deque plus the
registered alerts. -/
structure AdvState where
  live_candles : List Candle
  price_alerts : List PriceAlert
  deriving DecidableEq, Repr

/-- `AdvancedLiveChart.on_websocket_message` (lines 323–330): run the base
handler, then, if the candle deque is non-empty, evaluate the alerts at the
close of the last stored candle. -/
def adv_on_websocket_message (m : RawMsg) (s : AdvState) : AdvState × Outcome :=
  let r := on_websocket_message m s.live_candles
  match r.1.getLast? with
  | some l =>
      ({ live_candles := r.1,
         price_alerts := check_alerts l.close s.price_alerts }, r.2)
  | none => ({ live_candles := r.1, price_alerts := s.price_alerts }, r.2)

/-- Strictly time-ascending: the ordering invariant of the spec's
`CandleSeries`. -/
def StrictAsc (xs : List Candle) : Prop :=
  List.Pairwise (fun a b => a.time < b.time) xs

instance : DecidablePred StrictAsc := fun xs =>
  inferInstanceAs (Decidable (List.Pairwise _ xs))

/-- The stepwise admissibility condition of the first testable property:
each upserted candle's time is ≥ the time of the series' current last
element. -/
def admissibleB (N : Nat) : List Candle → List Candle → Bool
  | _, [] => true
  | xs, c :: cs =>
      (match xs.getLast? with
       | none => true
       | some l => decide (l.time ≤ c.time)) && admissibleB N (upsert N xs c) cs

/-- A concrete candle with the given `time` and `close`, used in the
concrete examples below. -/
def mkCandle (t : Int) (cl : ℚ) : Candle :=
  { time := t, open_ := 1, high := 2, low := 0, close := cl, volume := 0 }

lemma dequeAppend_eq_drop_append (N : Nat) (xs : List Candle) (c : Candle)
    (hN : 1 ≤ N) :
    dequeAppend N xs c = xs.drop (xs.length + 1 - N) ++ [c] := by
  unfold dequeAppend
  split
  · next h =>
      simp only [List.length_append, List.length_cons, List.length_nil] at h ⊢
      rw [List.drop_append_of_le_length (by omega)]
  · next h =>
      simp only [List.length_append, List.length_cons, List.length_nil] at h
      have h0 : xs.length + 1 - N = 0 := by omega
      rw [h0, List.drop_zero]

lemma dequeAppend_length (N : Nat) (xs : List Candle) (c : Candle) :
    (dequeAppend N xs c).length = min (xs.length + 1) N := by
  unfold dequeAppend
  split
  · next h =>
      simp only [List.length_drop, List.length_append, List.length_cons,
        List.length_nil] at h ⊢
      omega
  · next h =>
      simp only [List.length_append, List.length_cons, List.length_nil] at h ⊢
      omega

lemma dequeAppend_pairwise {R : Candle → Candle → Prop} {N : Nat}
    {xs : List Candle} {c : Candle} (h : List.Pairwise R (xs ++ [c])) :
    List.Pairwise R (dequeAppend N xs c) := by
  unfold dequeAppend
  split
  · exact List.Pairwise.sublist (List.drop_sublist _ _) h
  · exact h

lemma time_le_of_mem_getLast {xs : List Candle} {l a : Candle}
    (hs : StrictAsc xs) (hl : xs.getLast? = some l) (ha : a ∈ xs) :
    a.time ≤ l.time := by
  have hne : xs ≠ [] := by rintro rfl; simp at hl
  have hgl : l = xs.getLast hne := by
    rw [List.getLast?_eq_getLast xs hne] at hl
    exact (Option.some_inj.mp hl).symm
  have hdec := List.dropLast_append_getLast hne
  rw [← hgl] at hdec
  rw [← hdec] at ha hs
  rcases List.mem_append.mp ha with h1 | h2
  · exact le_of_lt ((List.pairwise_append.mp hs).2.2 a h1 l (List.mem_singleton_self l))
  · rw [List.mem_singleton.mp h2]

lemma upsert_getLast_eq {N : Nat} {xs : List Candle} {c l : Candle}
    (hl : xs.getLast? = some l) (heq : l.time = c.time) :
    upsert N xs c = xs.dropLast ++ [c] := by
  simp [upsert, hl, heq]

lemma upsert_getLast_ne {N : Nat} {xs : List Candle} {c l : Candle}
    (hl : xs.getLast? = some l) (hne : l.time ≠ c.time) :
    upsert N xs c = dequeAppend N xs c := by
  simp [upsert, hl, hne]

lemma upsert_nil {N : Nat} {c : Candle} :
    upsert N [] c = dequeAppend N [] c := by
  simp [upsert]

lemma strictAsc_upsert {N : Nat} {xs : List Candle} {c : Candle}
    (hs : StrictAsc xs)
    (hle : ∀ l, xs.getLast? = some l → l.time ≤ c.time) :
    StrictAsc (upsert N xs c) := by
  cases hl : xs.getLast? with
  | none =>
      have hxs : xs = [] := List.getLast?_eq_none_iff.mp hl
      subst hxs
      rw [upsert_nil]
      exact dequeAppend_pairwise (by simp [StrictAsc])
  | some l =>
      by_cases heq : l.time = c.time
      · rw [upsert_getLast_eq hl heq]
        have hne : xs ≠ [] := by rintro rfl; simp at hl
        have hgl : l = xs.getLast hne := by
          rw [List.getLast?_eq_getLast xs hne] at hl
          exact (Option.some_inj.mp hl).symm
        have hdec := List.dropLast_append_getLast hne
        rw [← hgl] at hdec
        have hs' : List.Pairwise (fun a b => a.time < b.time) (xs.dropLast ++ [l]) := by
          rw [hdec]; exact hs
        rcases List.pairwise_append.mp hs' with ⟨p1, _, hrel⟩
        refine List.pairwise_append.mpr ⟨p1, List.pairwise_singleton _ _, ?_⟩
        intro a ha b hb
        rw [List.mem_singleton.mp hb, ← heq]
        exact hrel a ha l (List.mem_singleton_self l)
      · rw [upsert_getLast_ne hl heq]
        have hlt : l.time < c.time := lt_of_le_of_ne (hle l hl) heq
        refine dequeAppend_pairwise
          (List.pairwise_append.mpr ⟨hs, List.pairwise_singleton _ _, ?_⟩)
        intro a ha b hb
        rw [List.mem_singleton.mp hb]
        exact lt_of_le_of_lt (time_le_of_mem_getLast hs hl ha) hlt

lemma strictAsc_foldl {N : Nat} (cs : List Candle) :
    ∀ xs : List Candle, StrictAsc xs → admissibleB N xs cs = true →
      StrictAsc (cs.foldl (upsert N) xs) := by
  induction cs with
  | nil => intro xs hs _; exact hs
  | cons c cs ih =>
      intro xs hs ha
      simp only [admissibleB, Bool.and_eq_true] at ha
      obtain ⟨h1, h2⟩ := ha
      have hle : ∀ l, xs.getLast? = some l → l.time ≤ c.time := by
        intro l hl
        rw [hl] at h1
        exact of_decide_eq_true h1
      rw [List.foldl_cons]
      exact ih (upsert N xs c) (strictAsc_upsert hs hle) h2

/-- C1: for every sequence of `upsert` calls in which each candle's time is
greater than or equal to the time of the series' current last element
(`admissibleB`), the resulting series is strictly time-ascending and no two
of its candles share a `time`. -/
theorem upsert_sequence_sorted_nodup (N : Nat) (cs : List Candle)
    (h : admissibleB N [] cs = true) :
    StrictAsc (cs.foldl (upsert N) []) ∧
    List.Pairwise (fun a b => a.time ≠ b.time) (cs.foldl (upsert N) []) := by
  have hs := strictAsc_foldl cs [] (by simp [StrictAsc]) h
  exact ⟨hs, hs.imp fun hlt => ne_of_lt hlt⟩

/-- Witness for C1 at a concrete admissible upsert sequence (times 1,2,2,3
with capacity 3). -/
theorem upsert_sequence_sorted_nodup_witness :
    StrictAsc ([mkCandle 1 10, mkCandle 2 20, mkCandle 2 21,
        mkCandle 3 30].foldl (upsert 3) []) ∧
    List.Pairwise (fun a b => a.time ≠ b.time)
      ([mkCandle 1 10, mkCandle 2 20, mkCandle 2 21,
        mkCandle 3 30].foldl (upsert 3) []) :=
  upsert_sequence_sorted_nodup 3
    [mkCandle 1 10, mkCandle 2 20, mkCandle 2 21, mkCandle 3 30] (by decide)

lemma upsert_length_le {N : Nat} {xs : List Candle} {c : Candle}
    (h : xs.length ≤ N) : (upsert N xs c).length ≤ N := by
  cases hl : xs.getLast? with
  | none =>
      rw [List.getLast?_eq_none_iff.mp hl] at h ⊢
      rw [upsert_nil, dequeAppend_length]
      simp only [List.length_nil]
      omega
  | some l =>
      by_cases heq : l.time = c.time
      · rw [upsert_getLast_eq hl heq]
        have hne : xs ≠ [] := by rintro rfl; simp at hl
        have hpos : 0 < xs.length := List.length_pos.mpr hne
        simp only [List.length_append, List.length_dropLast, List.length_cons,
          List.length_nil]
        omega
      · rw [upsert_getLast_ne hl heq, dequeAppend_length]
        omega

lemma foldl_dequeAppend_length_le {N : Nat} (result : List Candle) :
    ∀ s : List Candle, s.length ≤ N →
      (result.foldl (fun s c => dequeAppend N s c) s).length ≤ N := by
  induction result with
  | nil => intro s h; exact h
  | cons c rest ih =>
      intro s h
      rw [List.foldl_cons]
      refine ih _ ?_
      rw [dequeAppend_length]
      omega

lemma handler_length_le (m : RawMsg) (s : List Candle)
    (h : s.length ≤ maxlen) :
    ((on_websocket_message m s).1).length ≤ maxlen := by
  unfold on_websocket_message
  split
  · cases hp : parseCandle m with
    | some c => simpa using upsert_length_le h
    | none => simpa using h
  · split <;> simpa using h

/-- C3: the series never outgrows the capacity: `upsert` preserves
`length ≤ N`, the full message handler and the bulk load preserve
`length ≤ 100` (the program's `maxlen`); appending a genuinely new time
bucket to a series at capacity evicts exactly the oldest candle (FIFO),
while an in-place update of the last bucket never changes the length; with
capacity 3 and upserts at times 1,2,3,4 the final series holds exactly
times 2,3,4. -/
theorem capacity_bound_and_fifo_eviction :
    (∀ (N : Nat) (xs : List Candle) (c : Candle),
        xs.length ≤ N → (upsert N xs c).length ≤ N) ∧
    (∀ (m : RawMsg) (s : List Candle),
        s.length ≤ maxlen → ((on_websocket_message m s).1).length ≤ maxlen) ∧
    (∀ (success : Bool) (result s : List Candle),
        s.length ≤ maxlen →
        ((fetch_initial_data success result s).1).length ≤ maxlen) ∧
    (∀ (N : Nat) (xs : List Candle) (c l : Candle),
        xs.getLast? = some l → l.time ≠ c.time → xs.length = N →
        upsert N xs c = xs.drop 1 ++ [c]) ∧
    (∀ (N : Nat) (xs : List Candle) (c l : Candle),
        xs.getLast? = some l → l.time = c.time →
        (upsert N xs c).length = xs.length) ∧
    (([1, 2, 3, 4].map (fun t : Int => mkCandle t 0)).foldl (upsert 3) []).map
        Candle.time = [2, 3, 4] := by
  refine ⟨fun N xs c h => upsert_length_le h,
          handler_length_le,
          ?_, ?_, ?_, by decide⟩
  · intro success result s h
    unfold fetch_initial_data
    split
    · simpa using foldl_dequeAppend_length_le result s h
    · simpa using h
  · intro N xs c l hl hne hlen
    have hxs : xs ≠ [] := by rintro rfl; simp at hl
    have hpos : 0 < xs.length := List.length_pos.mpr hxs
    rw [upsert_getLast_ne hl hne,
        dequeAppend_eq_drop_append N xs c (by omega)]
    have hidx : xs.length + 1 - N = 1 := by omega
    rw [hidx]
  · intro N xs c l hl heq
    have hxs : xs ≠ [] := by rintro rfl; simp at hl
    have hpos : 0 < xs.length := List.length_pos.mpr hxs
    rw [upsert_getLast_eq hl heq]
    simp only [List.length_append, List.length_dropLast, List.length_cons,
      List.length_nil]
    omega

/-- Witness for C3 at concrete inputs: a full series of length 3 stays at
length 3 after an upsert, and the capacity-3 FIFO eviction at times 1,2,3
with a new time 4 drops time 1. -/
theorem capacity_bound_and_fifo_eviction_witness :
    (upsert 3 [mkCandle 1 0, mkCandle 2 0, mkCandle 3 0] (mkCandle 4 0)).length ≤ 3 ∧
    upsert 3 [mkCandle 1 0, mkCandle 2 0, mkCandle 3 0] (mkCandle 4 0) =
      [mkCandle 1 0, mkCandle 2 0, mkCandle 3 0].drop 1 ++ [mkCandle 4 0] :=
  ⟨capacity_bound_and_fifo_eviction.1 3
      [mkCandle 1 0, mkCandle 2 0, mkCandle 3 0] (mkCandle 4 0) (by decide),
   capacity_bound_and_fifo_eviction.2.2.2.1 3
      [mkCandle 1 0, mkCandle 2 0, mkCandle 3 0] (mkCandle 4 0) (mkCandle 3 0)
      rfl (by decide) rfl⟩

/-- C4: when the last element of the series has the upserted candle's
`time`, `upsert` replaces the last element in place: the series becomes
`dropLast ++ [c]`, its length is unchanged, every element before the last
is unchanged, and the last element becomes the new candle. -/
theorem upsert_replaces_last_in_place (N : Nat) (xs : List Candle)
    (c l : Candle) (hl : xs.getLast? = some l) (heq : l.time = c.time) :
    upsert N xs c = xs.dropLast ++ [c] ∧
    (upsert N xs c).length = xs.length ∧
    (upsert N xs c).dropLast = xs.dropLast ∧
    (upsert N xs c).getLast? = some c := by
  have hxs : xs ≠ [] := by rintro rfl; simp at hl
  have hpos : 0 < xs.length := List.length_pos.mpr hxs
  have h1 := upsert_getLast_eq (N := N) hl heq
  refine ⟨h1, ?_, ?_, ?_⟩
  · rw [h1]
    simp only [List.length_append, List.length_dropLast, List.length_cons,
      List.length_nil]
    omega
  · rw [h1, List.dropLast_concat]
  · rw [h1, List.getLast?_concat]

/-- Witness for C4: a series whose last element has time 10, upserted with
a time-10 candle closing at 105, keeps its length and ends with the new
candle (close 105). -/
theorem upsert_replaces_last_in_place_witness :
    (upsert 100 [mkCandle 10 100] (mkCandle 10 105)).length = 1 ∧
    (upsert 100 [mkCandle 10 100] (mkCandle 10 105)).getLast? =
      some (mkCandle 10 105) :=
  ⟨(upsert_replaces_last_in_place 100 [mkCandle 10 100] (mkCandle 10 105)
      (mkCandle 10 100) rfl rfl).2.1,
   (upsert_replaces_last_in_place 100 [mkCandle 10 100] (mkCandle 10 105)
      (mkCandle 10 100) rfl rfl).2.2.2⟩

lemma parseCandle_fields {m : RawMsg} {c : Candle}
    (h : parseCandle m = some c) :
    ∃ cst, m.candle_start_time = some cst ∧
      c.time = Int.fdiv cst 1000000 ∧ volField m.volume = some c.volume := by
  simp only [parseCandle, Option.pure_def, Option.bind_eq_bind,
    Option.bind_eq_some, Option.some.injEq] at h
  obtain ⟨cst, hcst, o, ho, hi, hh, lo, hlo, cl, hcl, v, hv, hc⟩ := h
  subst hc
  exact ⟨cst, hcst, rfl, hv⟩

/-- C5: the stored candle `time` is the feed's `candle_start_time` under
exact integer floor division by `10^6`; in particular a start time of
`1700000000000000` yields `time = 1700000000` exactly. -/
theorem candle_time_exact_integer_division :
    (∀ (m : RawMsg) (c : Candle), parseCandle m = some c →
      ∃ cst, m.candle_start_time = some cst ∧
        c.time = Int.fdiv cst 1000000) ∧
    (∀ (m : RawMsg) (c : Candle),
      m.candle_start_time = some 1700000000000000 →
      parseCandle m = some c → c.time = 1700000000) := by
  constructor
  · intro m c h
    obtain ⟨cst, hcst, ht, _⟩ := parseCandle_fields h
    exact ⟨cst, hcst, ht⟩
  · intro m c hcst h
    obtain ⟨cst, hcst', ht, _⟩ := parseCandle_fields h
    rw [hcst] at hcst'
    rw [ht, ← Option.some_inj.mp hcst']
    decide

/-- Witness for C5: a concrete well-formed candle message with
`candle_start_time = 1700000000000000` parses to a candle whose time is
exactly `1700000000`. -/
theorem candle_time_exact_integer_division_witness :
    ∀ c : Candle,
      parseCandle
        { type := some "candlestick_1m", symbol := some "ETHUSD",
          candle_start_time := some 1700000000000000,
          open_ := some (RawNum.val 100), high := some (RawNum.val 101),
          low := some (RawNum.val 99), close := some (RawNum.val 100),
          volume := none } = some c →
      c.time = 1700000000 :=
  fun c h =>
    candle_time_exact_integer_division.2
      { type := some "candlestick_1m", symbol := some "ETHUSD",
        candle_start_time := some 1700000000000000,
        open_ := some (RawNum.val 100), high := some (RawNum.val 101),
        low := some (RawNum.val 99), close := some (RawNum.val 100),
        volume := none } c rfl h

/-- Counterexample to C2: upserting a candle with time 9 into a series
whose last time is 10 does not drop the candle and does not leave the
series unchanged — the candle is appended (lines 86–88 have no
out-of-order check). -/
theorem upsert_out_of_order_cex :
    upsert maxlen [mkCandle 10 100] (mkCandle 9 90) =
      [mkCandle 10 100, mkCandle 9 90] ∧
    upsert maxlen [mkCandle 10 100] (mkCandle 9 90) ≠ [mkCandle 10 100] := by
  decide

/-- C2 amended: upserting a candle strictly older than the series tail
appends it (with the usual deque eviction): the series ends with the new
candle and is changed; no rejection happens. -/
theorem upsert_out_of_order_appends (N : Nat) (xs : List Candle)
    (c l : Candle) (hl : xs.getLast? = some l) (hlt : c.time < l.time)
    (hN : 1 ≤ N) :
    upsert N xs c = xs.drop (xs.length + 1 - N) ++ [c] ∧
    (upsert N xs c).getLast? = some c ∧
    upsert N xs c ≠ xs := by
  have hne : l.time ≠ c.time := by
    intro h
    rw [h] at hlt
    exact lt_irrefl _ hlt
  have h1 : upsert N xs c = dequeAppend N xs c := upsert_getLast_ne hl hne
  rw [h1, dequeAppend_eq_drop_append N xs c hN]
  refine ⟨rfl, List.getLast?_concat _, ?_⟩
  intro hEq
  have h2 := congrArg List.getLast? hEq
  rw [List.getLast?_concat, hl] at h2
  have h3 : c = l := Option.some_inj.mp h2
  rw [h3] at hlt
  exact lt_irrefl _ hlt

/-- Witness for the amended C2 at a concrete input: upserting time 9 after
time 10 leaves the new candle at the tail and changes the series. -/
theorem upsert_out_of_order_appends_witness :
    (upsert 100 [mkCandle 10 100] (mkCandle 9 90)).getLast? =
      some (mkCandle 9 90) ∧
    upsert 100 [mkCandle 10 100] (mkCandle 9 90) ≠ [mkCandle 10 100] :=
  ⟨(upsert_out_of_order_appends 100 [mkCandle 10 100] (mkCandle 9 90)
      (mkCandle 10 100) rfl (by decide) (by decide)).2.1,
   (upsert_out_of_order_appends 100 [mkCandle 10 100] (mkCandle 9 90)
      (mkCandle 10 100) rfl (by decide) (by decide)).2.2⟩

lemma parseCandle_none_iff (m : RawMsg) :
    parseCandle m = none ↔
      (m.candle_start_time = none ∨ reqField m.open_ = none ∨
       reqField m.high = none ∨ reqField m.low = none ∨
       reqField m.close = none ∨ volField m.volume = none) := by
  unfold parseCandle
  cases hcst : m.candle_start_time <;>
    cases ho : reqField m.open_ <;>
      cases hh : reqField m.high <;>
        cases hl : reqField m.low <;>
          cases hc : reqField m.close <;>
            cases hv : volField m.volume <;>
              simp

/-- A candle message whose `open` parses to a negative number; the handler
accepts and applies it. -/
def negPriceMsg : RawMsg :=
  { type := some "candlestick_1m", symbol := some "ETHUSD",
    candle_start_time := some 600000000,
    open_ := some (RawNum.val (-1)), high := some (RawNum.val 1),
    low := some (RawNum.val (-2)), close := some (RawNum.val 1),
    volume := none }

/-- Counterexample to C6: a candle message whose `open` parses to the
negative decimal `-1` is not classified malformed and is applied to the
series — the handler never checks sign (lines 74–78 only call `float`). -/
theorem handler_negative_price_applied_cex :
    (on_websocket_message negPriceMsg []).1 ≠ [] ∧
    (on_websocket_message negPriceMsg []).2 ≠ Outcome.Malformed := by
  decide

/-- C6 amended: a message enters candle handling (is applied or classified
malformed) iff its `type` is `candlestick_1m` and its `symbol` is `ETHUSD`;
in that case, if any mandatory OHLC field (or a present volume) fails to
parse as a decimal — sign unchecked, negative values accepted — the message
is classified malformed and the series is unchanged; and parsing fails
exactly when some required field is absent or unparseable. -/
theorem handler_candle_classification (m : RawMsg) (s : List Candle) :
    (((∃ c, (on_websocket_message m s).2 = Outcome.CandleUpdated c) ∨
       (on_websocket_message m s).2 = Outcome.Malformed) ↔
      (m.type = some "candlestick_1m" ∧ m.symbol = some "ETHUSD")) ∧
    (m.type = some "candlestick_1m" → m.symbol = some "ETHUSD" →
      parseCandle m = none →
      on_websocket_message m s = (s, Outcome.Malformed)) ∧
    (parseCandle m = none ↔
      (m.candle_start_time = none ∨ reqField m.open_ = none ∨
       reqField m.high = none ∨ reqField m.low = none ∨
       reqField m.close = none ∨ volField m.volume = none)) := by
  refine ⟨?_, ?_, parseCandle_none_iff m⟩
  · unfold on_websocket_message
    split
    · next hcond =>
        cases hp : parseCandle m <;> simp [hcond]
    · next hcond =>
        split <;> simp [hcond]
  · intro h1 h2 hp
    unfold on_websocket_message
    rw [if_pos ⟨h1, h2⟩, hp]

/-- A candle message whose `close` does not parse. -/
def badCloseMsg : RawMsg :=
  { type := some "candlestick_1m", symbol := some "ETHUSD",
    candle_start_time := some 600000000,
    open_ := some (RawNum.val 1), high := some (RawNum.val 1),
    low := some (RawNum.val 1), close := some RawNum.bad,
    volume := none }

/-- Witness for the amended C6: a candle message with an unparseable
`close` is classified malformed and leaves the series unchanged. -/
theorem handler_candle_classification_witness :
    on_websocket_message badCloseMsg [] = ([], Outcome.Malformed) :=
  (handler_candle_classification badCloseMsg []).2.1 rfl rfl (by decide)

lemma check_alerts_eq_map (p : ℚ) (as : List PriceAlert) :
    check_alerts p as = as.map (check_alert_step p) := by
  induction as with
  | nil => rfl
  | cons a rest ih => simp [check_alerts, ih]

/-- C7: alert evaluation is an independent pointwise pass in registration
order (a `map`, so one alert firing never suppresses the others); a
still-armed alert ends up triggered iff (direction `above` and
`price ≤ current`) or (direction `below` and `current ≤ price`); an
already-triggered alert is left exactly as it is (one-shot latch); the
threshold and direction are never modified and `triggered` never goes back
from `true` to `false`. -/
theorem check_alerts_one_shot_latch (p : ℚ) (as : List PriceAlert) :
    check_alerts p as = as.map (check_alert_step p) ∧
    (∀ a : PriceAlert, a.triggered = false →
      ((check_alert_step p a).triggered = true ↔
        ((a.type = "above" ∧ a.price ≤ p) ∨
         (a.type = "below" ∧ p ≤ a.price)))) ∧
    (∀ a : PriceAlert, a.triggered = true → check_alert_step p a = a) ∧
    (∀ a : PriceAlert,
      (check_alert_step p a).price = a.price ∧
      (check_alert_step p a).type = a.type ∧
      (a.triggered = true → (check_alert_step p a).triggered = true)) := by
  refine ⟨check_alerts_eq_map p as, ?_, ?_, ?_⟩
  · intro a ha
    by_cases h1 : a.type = "above" ∧ a.price ≤ p
    · simp [check_alert_step, ha, h1]
    · by_cases h2 : a.type = "below" ∧ p ≤ a.price
      · simp [check_alert_step, ha, h1, h2]
      · simp [check_alert_step, ha, h1, h2]
  · intro a ha
    simp [check_alert_step, ha]
  · intro a
    by_cases ha : a.triggered = false
    · by_cases h1 : a.type = "above" ∧ a.price ≤ p
      · simp [check_alert_step, ha, h1]
      · by_cases h2 : a.type = "below" ∧ p ≤ a.price
        · simp [check_alert_step, ha, h1, h2]
        · simp [check_alert_step, ha, h1, h2]
    · simp [check_alert_step, ha]

/-- Witness for C7 at concrete alerts: an armed `above 100` alert fires at
price 100, and an already-triggered alert is untouched at any price. -/
theorem check_alerts_one_shot_latch_witness :
    check_alerts 100 [{ price := 100, type := "above", triggered := false }] =
      [{ price := 100, type := "above", triggered := false }].map
        (check_alert_step 100) ∧
    check_alert_step 150 { price := 100, type := "above", triggered := true } =
      { price := 100, type := "above", triggered := true } :=
  ⟨(check_alerts_one_shot_latch 100
      [{ price := 100, type := "above", triggered := false }]).1,
   (check_alerts_one_shot_latch 150
      [{ price := 100, type := "above", triggered := true }]).2.2.1
      { price := 100, type := "above", triggered := true } rfl⟩

lemma dequeAppend_no_evict {N : Nat} {xs : List Candle} {c : Candle}
    (h : xs.length + 1 ≤ N) : dequeAppend N xs c = xs ++ [c] := by
  unfold dequeAppend
  rw [if_neg]
  simp only [List.length_append, List.length_cons, List.length_nil]
  omega

lemma foldl_dequeAppend_id {N : Nat} (result : List Candle) :
    ∀ s : List Candle, s.length + result.length ≤ N →
      result.foldl (fun acc c => dequeAppend N acc c) s = s ++ result := by
  induction result with
  | nil => intro s _; simp
  | cons c rest ih =>
      intro s h
      simp only [List.length_cons] at h
      rw [List.foldl_cons, dequeAppend_no_evict (by omega), ih (s ++ [c]) (by simp; omega)]
      simp

/-- Counterexample to C8: `fetch_initial_data` given the non-ascending
result [time 2, time 1] does not fail and does not leave the series
unchanged — it loads the candles verbatim, producing a series that is not
time-ascending (lines 51–54 perform no validation). -/
theorem bulk_load_no_validation_cex :
    (fetch_initial_data true [mkCandle 2 0, mkCandle 1 0] []).1 =
      [mkCandle 2 0, mkCandle 1 0] ∧
    (fetch_initial_data true [mkCandle 2 0, mkCandle 1 0] []).1 ≠ [] ∧
    ¬ StrictAsc (fetch_initial_data true [mkCandle 2 0, mkCandle 1 0] []).1 := by
  decide

/-- C8 amended: a failed fetch or an empty result makes `fetch_initial_data`
report `false` and leave the series unchanged (no exception is raised); a
non-empty result is loaded as-is, with no ascending-order validation of any
kind (any list that fits the capacity is installed verbatim and reported as
success). -/
theorem fetch_initial_data_no_validation :
    (∀ (result s : List Candle), fetch_initial_data false result s = (s, false)) ∧
    (∀ s : List Candle, fetch_initial_data true [] s = (s, false)) ∧
    (∀ result : List Candle, result ≠ [] → result.length ≤ maxlen →
      fetch_initial_data true result [] = (result, true)) := by
  refine ⟨?_, ?_, ?_⟩
  · intro result s
    simp [fetch_initial_data]
  · intro s
    simp [fetch_initial_data]
  · intro result hne hlen
    unfold fetch_initial_data
    rw [if_pos ⟨rfl, hne⟩, foldl_dequeAppend_id result [] (by simpa using hlen)]
    simp

/-- Witness for the amended C8 at concrete inputs: the non-ascending result
[time 2, time 1] is installed verbatim with success, and an empty result
leaves the series unchanged with failure. -/
theorem fetch_initial_data_no_validation_witness :
    fetch_initial_data true [mkCandle 2 0, mkCandle 1 0] [] =
      ([mkCandle 2 0, mkCandle 1 0], true) ∧
    fetch_initial_data true [] [mkCandle 1 0] = ([mkCandle 1 0], false) :=
  ⟨fetch_initial_data_no_validation.2.2 [mkCandle 2 0, mkCandle 1 0]
      (by decide) (by decide),
   fetch_initial_data_no_validation.2.1 [mkCandle 1 0]⟩

/-- A candle message whose mandatory OHLC fields parse but whose present
`volume` does not. -/
def badVolumeMsg : RawMsg :=
  { type := some "candlestick_1m", symbol := some "ETHUSD",
    candle_start_time := some 600000000,
    open_ := some (RawNum.val 1), high := some (RawNum.val 2),
    low := some (RawNum.val 1), close := some (RawNum.val 1),
    volume := some RawNum.bad }

/-- Counterexample to C9: a message with a present but unparseable `volume`
is not applied with volume zero — the whole message is rejected (the
exception from `float` at line 78 aborts the candle, series unchanged). -/
theorem malformed_volume_rejected_cex :
    (on_websocket_message badVolumeMsg []).1 = [] ∧
    (on_websocket_message badVolumeMsg []).2 = Outcome.Malformed := by
  decide

/-- A candle message with no `volume` key at all. -/
def noVolumeMsg : RawMsg :=
  { type := some "candlestick_1m", symbol := some "ETHUSD",
    candle_start_time := some 600000000,
    open_ := some (RawNum.val 1), high := some (RawNum.val 2),
    low := some (RawNum.val 1), close := some (RawNum.val 1),
    volume := none }

/-- C9 amended: an absent `volume` defaults to zero (the candle is applied
with `volume = 0`); a present `volume` is carried through when it parses;
a present but unparseable `volume` causes the whole message to be rejected
with the series unchanged, exactly like the mandatory OHLC fields. -/
theorem volume_default_and_rejection :
    (∀ (m : RawMsg) (c : Candle), m.volume = none →
      parseCandle m = some c → c.volume = 0) ∧
    (∀ (m : RawMsg) (q : ℚ) (c : Candle), m.volume = some (RawNum.val q) →
      parseCandle m = some c → c.volume = q) ∧
    (∀ (m : RawMsg) (s : List Candle), m.volume = some RawNum.bad →
      (on_websocket_message m s).1 = s ∧
      ∀ c, (on_websocket_message m s).2 ≠ Outcome.CandleUpdated c) := by
  refine ⟨?_, ?_, ?_⟩
  · intro m c hv hp
    obtain ⟨cst, _, _, hvol⟩ := parseCandle_fields hp
    rw [hv] at hvol
    exact (Option.some_inj.mp hvol).symm
  · intro m q c hv hp
    obtain ⟨cst, _, _, hvol⟩ := parseCandle_fields hp
    rw [hv] at hvol
    exact (Option.some_inj.mp hvol).symm
  · intro m s hv
    have hp : parseCandle m = none := by
      refine (parseCandle_none_iff m).mpr (Or.inr (Or.inr (Or.inr (Or.inr (Or.inr ?_)))))
      rw [hv, volField]
    by_cases hcond : m.type = some "candlestick_1m" ∧ m.symbol = some "ETHUSD"
    · constructor
      · simp [on_websocket_message, hcond, hp]
      · intro c
        simp [on_websocket_message, hcond, hp]
    · by_cases ht : m.type = some "ticker" ∧ m.symbol = some "ETHUSD"
      · constructor
        · simp [on_websocket_message, hcond, ht]
        · intro c
          simp [on_websocket_message, hcond, ht]
      · constructor
        · simp [on_websocket_message, hcond, ht]
        · intro c
          simp [on_websocket_message, hcond, ht]

/-- Witness for the amended C9 at concrete inputs: the message without a
`volume` key parses to a candle with volume 0, and the message with the
unparseable `volume` leaves the series unchanged. -/
theorem volume_default_and_rejection_witness :
    ({ time := 600, open_ := 1, high := 2, low := 1, close := 1,
       volume := 0 } : Candle).volume = 0 ∧
    (on_websocket_message badVolumeMsg []).1 = [] :=
  ⟨volume_default_and_rejection.1 noVolumeMsg
      { time := 600, open_ := 1, high := 2, low := 1, close := 1,
        volume := 0 } rfl (by decide),
   (volume_default_and_rejection.2.2 badVolumeMsg [] rfl).1⟩

lemma handler_non_candle_unchanged (m : RawMsg) (s : List Candle)
    (h : ∀ c, (on_websocket_message m s).2 ≠ Outcome.CandleUpdated c) :
    (on_websocket_message m s).1 = s := by
  by_cases hcond : m.type = some "candlestick_1m" ∧ m.symbol = some "ETHUSD"
  · cases hp : parseCandle m with
    | some c =>
        exfalso
        apply h c
        simp [on_websocket_message, hcond, hp]
    | none => simp [on_websocket_message, hcond, hp]
  · by_cases ht : m.type = some "ticker" ∧ m.symbol = some "ETHUSD" <;>
      simp [on_websocket_message, hcond, ht]

/-- C10: in the alert-enabled handler the alert pass runs after every
inbound message exactly when the post-message series is non-empty, and it
always evaluates the close of the last stored candle; when the series ends
up empty the alerts are untouched; the candle series itself is exactly
what the base handler produced; and any message that is not applied as a
candle update (ticker messages included) leaves the series unchanged, so
on an empty series no ticker ever triggers an evaluation. -/
theorem adv_handler_alert_evaluation (m : RawMsg) (s : AdvState) :
    ((on_websocket_message m s.live_candles).1 = [] →
      (adv_on_websocket_message m s).1.price_alerts = s.price_alerts) ∧
    (∀ l, (on_websocket_message m s.live_candles).1.getLast? = some l →
      (adv_on_websocket_message m s).1.price_alerts =
        check_alerts l.close s.price_alerts) ∧
    ((adv_on_websocket_message m s).1.live_candles =
      (on_websocket_message m s.live_candles).1) ∧
    ((adv_on_websocket_message m s).2 = (on_websocket_message m s.live_candles).2) ∧
    ((∀ c, (on_websocket_message m s.live_candles).2 ≠ Outcome.CandleUpdated c) →
      (on_websocket_message m s.live_candles).1 = s.live_candles) := by
  refine ⟨?_, ?_, ?_, ?_, handler_non_candle_unchanged m s.live_candles⟩
  · intro h
    simp [adv_on_websocket_message, h]
  · intro l hl
    simp [adv_on_websocket_message, hl]
  · cases hgl : (on_websocket_message m s.live_candles).1.getLast? <;>
      simp [adv_on_websocket_message, hgl]
  · cases hgl : (on_websocket_message m s.live_candles).1.getLast? <;>
      simp [adv_on_websocket_message, hgl]

/-- A well-formed ticker message. -/
def tickerMsg : RawMsg :=
  { type := some "ticker", symbol := some "ETHUSD",
    candle_start_time := none, open_ := none, high := none, low := none,
    close := none, volume := none }

/-- An unrecognized message (no matching channel). -/
def junkMsg : RawMsg :=
  { type := some "other", symbol := none,
    candle_start_time := none, open_ := none, high := none, low := none,
    close := none, volume := none }

/-- Witness for C10 at concrete inputs: a valid ticker on an empty series
triggers no alert evaluation, and an ignored message on a non-empty series
evaluates the alerts at the close of the last stored candle. -/
theorem adv_handler_alert_evaluation_witness :
    (adv_on_websocket_message tickerMsg
      { live_candles := [],
        price_alerts := [{ price := 100, type := "above", triggered := false }] }).1.price_alerts =
      [{ price := 100, type := "above", triggered := false }] ∧
    (adv_on_websocket_message junkMsg
      { live_candles := [mkCandle 5 50],
        price_alerts := [{ price := 40, type := "above", triggered := false }] }).1.price_alerts =
      check_alerts (mkCandle 5 50).close
        [{ price := 40, type := "above", triggered := false }] :=
  ⟨(adv_handler_alert_evaluation tickerMsg
      { live_candles := [],
        price_alerts := [{ price := 100, type := "above", triggered := false }] }).1
      (by decide),
   (adv_handler_alert_evaluation junkMsg
      { live_candles := [mkCandle 5 50],
        price_alerts := [{ price := 40, type := "above", triggered := false }] }).2.1
      (mkCandle 5 50) (by decide)⟩
